import Mathlib

/-!
Formal model of the road-incident reporting application.

The definitions below are shallow embeddings of the TypeScript source:
  - src/hooks/use-reports.ts        (fetchReports, deleteReport, realtime merge)
  - src/components/ReportsList.tsx  (fetch + realtime merge, hard coded active status)
  - src/components/ReportForm.tsx   (onSubmit insert row, calculateDistance)
  - src/lib/sanitize.ts             (sanitizeUrl and friends)
  - src/lib/utils.ts                (formatTimeAgo, calculateDistance)
  - Analytics component             (fetchAnalytics topLocations aggregate)

JavaScript strings are modelled as Lean String values; operations such as
toLowerCase, trim, includes and lexicographic comparison are modelled at the
character-list level so that every definition evaluates inside the kernel.
Asynchronous backend calls are modelled by passing the backend outcome as an
explicit argument.  The JavaScript number type appears only in latitude and
longitude fields (modelled as Option Rat, unused by the list logic) and in the
haversine distance, which is modelled over the reals.
-/

/-- Row of the reports table, as in the Report interface of use-reports.ts. -/
structure Report where
  id : String
  title : String
  description : String
  location : String
  category : String
  severity : String
  status : String
  reporter_name : Option String
  reporter_email : Option String
  latitude : Option Rat
  longitude : Option Rat
  created_at : String
  updated_at : String
deriving DecidableEq

/-- Sort order option of useReports: the string union of newest and oldest. -/
inductive SortOrder where
  | newest
  | oldest
deriving DecidableEq

/-- Options record UseReportsOptions of use-reports.ts; every field is optional. -/
structure UseReportsOptions where
  filter : Option String := none
  searchTerm : Option String := none
  sortOrder : Option SortOrder := none
  status : Option String := none
deriving DecidableEq

/-- JavaScript truthiness of an optional string: undefined and the empty string
are falsy, every other string is truthy. -/
def truthyStr : Option String → Bool
  | none => false
  | some s => s ≠ ""

/-- Lowercasing of a string, modelling the JavaScript toLowerCase call on the
ASCII data that the application handles (character-wise Char.toLower). -/
def strToLower (s : String) : String :=
  String.mk (s.data.map Char.toLower)

/-- Containment test for character lists, modelling the JavaScript includes
method: the first list occurs contiguously inside the second. -/
def listIsInfixOf (sub : List Char) : List Char → Bool
  | [] => sub.isEmpty
  | c :: cs => sub.isPrefixOf (c :: cs) || listIsInfixOf sub cs

/-- String containment, modelling the JavaScript includes method. -/
def strIncludes (s sub : String) : Bool :=
  listIsInfixOf sub.data s.data

/-- Lexicographic less-or-equal on character lists, by code point.  This models
the ordering of ISO 8601 created_at strings used by the backend order clause. -/
def charListLE : List Char → List Char → Bool
  | [], _ => true
  | _ :: _, [] => false
  | a :: as, b :: bs =>
      Nat.blt a.toNat b.toNat || (a.toNat == b.toNat && charListLE as bs)

theorem charListLE_total (as bs : List Char) :
    charListLE as bs = true ∨ charListLE bs as = true := by
  induction as generalizing bs with
  | nil => exact Or.inl rfl
  | cons a as ih =>
    cases bs with
    | nil => exact Or.inr rfl
    | cons b bs =>
      simp only [charListLE, Bool.or_eq_true, Bool.and_eq_true, Nat.blt_eq,
        beq_iff_eq]
      rcases Nat.lt_trichotomy a.toNat b.toNat with h | h | h
      · exact Or.inl (Or.inl h)
      · rcases ih bs with h2 | h2
        · exact Or.inl (Or.inr ⟨h, h2⟩)
        · exact Or.inr (Or.inr ⟨h.symm, h2⟩)
      · exact Or.inr (Or.inl h)

theorem charListLE_trans (as bs cs : List Char)
    (h1 : charListLE as bs = true) (h2 : charListLE bs cs = true) :
    charListLE as cs = true := by
  induction as generalizing bs cs with
  | nil => rfl
  | cons a as ih =>
    cases bs with
    | nil => simp [charListLE] at h1
    | cons b bs =>
      cases cs with
      | nil => simp [charListLE] at h2
      | cons c cs =>
        simp only [charListLE, Bool.or_eq_true, Bool.and_eq_true, Nat.blt_eq,
          beq_iff_eq] at h1 h2 ⊢
        rcases h1 with h1 | ⟨h1e, h1r⟩
        · rcases h2 with h2 | ⟨h2e, _⟩
          · exact Or.inl (Nat.lt_trans h1 h2)
          · exact Or.inl (h2e ▸ h1)
        · rcases h2 with h2 | ⟨h2e, h2r⟩
          · exact Or.inl (h1e ▸ h2)
          · exact Or.inr ⟨h1e.trans h2e, ih bs cs h1r h2r⟩

/-- Comparison of two reports by their created_at string, ascending. -/
def createdAtLe (a b : Report) : Prop :=
  charListLE a.created_at.data b.created_at.data = true

/-- Comparison of two reports by their created_at string, descending. -/
def createdAtGe (a b : Report) : Prop :=
  charListLE b.created_at.data a.created_at.data = true

instance : DecidableRel createdAtLe := fun a b => by
  unfold createdAtLe; infer_instance

instance : DecidableRel createdAtGe := fun a b => by
  unfold createdAtGe; infer_instance

instance : IsTotal Report createdAtLe :=
  ⟨fun a b => charListLE_total a.created_at.data b.created_at.data⟩

instance : IsTotal Report createdAtGe :=
  ⟨fun a b => charListLE_total b.created_at.data a.created_at.data⟩

instance : IsTrans Report createdAtLe :=
  ⟨fun _ _ _ h1 h2 => charListLE_trans _ _ _ h1 h2⟩

instance : IsTrans Report createdAtGe :=
  ⟨fun _ _ _ h1 h2 => charListLE_trans _ _ _ h2 h1⟩

/-- Status value that the reports query and the realtime handlers compare
against: options.status when truthy, otherwise the string active. -/
def statusFilterValue (opts : UseReportsOptions) : String :=
  if truthyStr opts.status then opts.status.getD "" else "active"

/-- Local search predicate of fetchReports: the lowercased title, description
or location includes the lowercased search term. -/
def matchesSearch (term : String) (r : Report) : Bool :=
  strIncludes (strToLower r.title) (strToLower term) ||
  strIncludes (strToLower r.description) (strToLower term) ||
  strIncludes (strToLower r.location) (strToLower term)

/-- Embedding of the backend query built by fetchReports in use-reports.ts:
the status equality filter (options.status when truthy, otherwise active), the
category equality filter (when options.filter is truthy and not the string
all), and the order clause on created_at (ascending exactly when sortOrder is
oldest, descending otherwise).  The argument models the rows of the backend
reports table; the order clause is modelled by a stable sort on the
lexicographic order of the created_at strings. -/
def reportsQuery (opts : UseReportsOptions) (table : List Report) :
    List Report :=
  let q1 := table.filter (fun r => r.status == statusFilterValue opts)
  let q2 := if truthyStr opts.filter && (opts.filter.getD "" != "all") then
      q1.filter (fun r => r.category == opts.filter.getD "")
    else q1
  if opts.sortOrder == some SortOrder.oldest then
    q2.insertionSort createdAtLe
  else q2.insertionSort createdAtGe

/-- Reports array produced by a successful fetchReports run: the backend query
result with the search term filter applied locally. -/
def fetchReportsQuery (opts : UseReportsOptions) (table : List Report) :
    List Report :=
  if truthyStr opts.searchTerm then
    (reportsQuery opts table).filter (matchesSearch (opts.searchTerm.getD ""))
  else reportsQuery opts table

/-- Realtime postgres_changes payloads handled by the subscription effect: a
DELETE carries the id of the old row, INSERT and UPDATE carry the new row. -/
inductive RealtimeEvent where
  | delete (oldId : String)
  | insert (newReport : Report)
  | update (newReport : Report)

/-- Embedding of the realtime merge effect of useReports (use-reports.ts).
DELETE filters out rows with the deleted id; INSERT prepends the new row when
its status matches the status filter and otherwise ignores it; UPDATE removes
the row when the new status no longer matches and otherwise maps the row with
the matching id to the updated row (the object spread of the full payload row
replaces every field).  The ReportsList.tsx handler is this definition with an
options value whose status field is none, so the expected status is active. -/
def applyRealtimeEvent (opts : UseReportsOptions) (ev : RealtimeEvent)
    (prev : List Report) : List Report :=
  match ev with
  | RealtimeEvent.delete oldId => prev.filter (fun r => r.id ≠ oldId)
  | RealtimeEvent.insert nr =>
      if (if truthyStr opts.status then nr.status == opts.status.getD ""
          else nr.status == "active") then
        nr :: prev
      else prev
  | RealtimeEvent.update ur =>
      let expectedStatus := statusFilterValue opts
      if ur.status ≠ expectedStatus then
        prev.filter (fun r => r.id ≠ ur.id)
      else
        prev.map (fun r => if r.id == ur.id then ur else r)

/-- Requests that deleteReport issues against the backend: the hard delete of
a row, or the fallback status update of a row. -/
inductive DbRequest where
  | hardDelete (reportId : String)
  | updateStatus (reportId : String) (newStatus : String)
deriving DecidableEq

/-- Backend outcomes for the two requests that deleteReport can issue: the
error of the delete call and the error of the fallback update call, each none
on success.  The update outcome is only consulted when the hard delete fails,
mirroring the control flow of the source. -/
structure DeleteOutcome where
  hardDeleteError : Option String
  updateError : Option String

/-- Variant of a toast notification as passed to the toast helper. -/
inductive ToastVariant where
  | default
  | destructive
deriving DecidableEq

/-- Toast notification payload with the literal strings of the source. -/
structure ToastMsg where
  title : String
  description : String
  variant : ToastVariant
deriving DecidableEq

/-- Result of a deleteReport call: the requests issued, the new local reports
array, the boolean return value, and the toast that was shown. -/
structure DeleteResult where
  requests : List DbRequest
  reports : List Report
  returned : Bool
  toast : ToastMsg

/-- Embedding of deleteReport from use-reports.ts (the handleDeleteConfirm
callback of ReportsList.tsx has the same try-hard-delete-then-soft-delete
logic).  A hard delete is attempted first; when it errors, a status update to
resolved is attempted; when that update also errors, the exception is caught,
an error toast is shown and false is returned with the array unchanged; in
every other case the row is filtered out of the local array, a success toast
is shown and true is returned. -/
def deleteReport (outcome : DeleteOutcome) (prev : List Report)
    (reportId : String) : DeleteResult :=
  match outcome.hardDeleteError with
  | none =>
      { requests := [DbRequest.hardDelete reportId]
        reports := prev.filter (fun r => r.id ≠ reportId)
        returned := true
        toast := { title := "Report deleted"
                   description := "The report has been successfully removed."
                   variant := ToastVariant.default } }
  | some _ =>
      match outcome.updateError with
      | none =>
          { requests := [DbRequest.hardDelete reportId,
                         DbRequest.updateStatus reportId "resolved"]
            reports := prev.filter (fun r => r.id ≠ reportId)
            returned := true
            toast := { title := "Report deleted"
                       description := "The report has been successfully removed."
                       variant := ToastVariant.default } }
      | some _ =>
          { requests := [DbRequest.hardDelete reportId,
                         DbRequest.updateStatus reportId "resolved"]
            reports := prev
            returned := false
            toast := { title := "Error deleting report"
                       description := "Please try again later."
                       variant := ToastVariant.destructive } }

/-- Error value a JavaScript catch receives: an Error object with a message,
or any other thrown value. -/
inductive JsError where
  | errorObj (message : String)
  | other

/-- Message extraction of the catch blocks: err.message for Error instances,
otherwise the literal generic message. -/
def jsErrorMessage : JsError → String
  | JsError.errorObj m => m
  | JsError.other => "An error occurred"

/-- Local state of the useReports hook that fetchReports touches. -/
structure FetchState where
  reports : List Report
  loading : Bool
  error : Option String
deriving DecidableEq

/-- Embedding of one run of fetchReports from use-reports.ts, with the backend
response passed explicitly.  On success the data (already filtered and ordered
by the backend, here produced by fetchReportsQuery from the table rows) gets
the local search filter applied and replaces the reports array, and the error
state is cleared.  On failure the error state is set to the extracted message,
a destructive toast is shown, no further request is issued, and the reports
array is left unchanged.  loading is reset in the finally block. -/
def fetchReportsRun (opts : UseReportsOptions) (st : FetchState)
    (response : Except JsError (List Report)) :
    FetchState × Option ToastMsg :=
  match response with
  | Except.ok data =>
      let filteredData := if truthyStr opts.searchTerm then
          data.filter (matchesSearch (opts.searchTerm.getD ""))
        else data
      ({ reports := filteredData, loading := false, error := none }, none)
  | Except.error e =>
      ({ reports := st.reports, loading := false,
         error := some (jsErrorMessage e) },
       some { title := "Error loading reports"
              description := "Please try again later."
              variant := ToastVariant.destructive })

/-- Trim of leading and trailing whitespace, modelling the JavaScript trim
method at the character-list level. -/
def strTrim (s : String) : String :=
  String.mk
    (((s.data.dropWhile Char.isWhitespace).reverse.dropWhile
        Char.isWhitespace).reverse)

/-- Case-sensitive prefix test, modelling the JavaScript startsWith method. -/
def strStartsWith (s p : String) : Bool :=
  p.data.isPrefixOf s.data

/-- Case-insensitive anchored prefix test, modelling a test of an anchored
regular expression with the i flag. -/
def startsWithCI (s p : String) : Bool :=
  (strToLower p).data.isPrefixOf (strToLower s).data

/-- Sanitization levels of sanitize.ts (keys of SANITIZE_CONFIGS). -/
inductive SanitizeLevel where
  | strict
  | basic
  | rich
  | textOnly
deriving DecidableEq

/-- Abstract model of the external DOMPurify.sanitize call: one string
transformer per configuration level.  The theorems below hold for every such
transformer, so nothing is assumed about the library internals. -/
def DomPurify : Type := SanitizeLevel → String → String

/-- Embedding of sanitizeHtml from sanitize.ts: empty input short-circuits to
the empty string, otherwise DOMPurify.sanitize runs with the selected
configuration. -/
def sanitizeHtml (dom : DomPurify) (dirty : String) (level : SanitizeLevel) :
    String :=
  if dirty = "" then "" else dom level dirty

/-- Embedding of sanitizeText from sanitize.ts. -/
def sanitizeText (dom : DomPurify) (input : String) : String :=
  sanitizeHtml dom input SanitizeLevel.textOnly

/-- Embedding of sanitizeUserContent from sanitize.ts. -/
def sanitizeUserContent (dom : DomPurify) (input : String) : String :=
  sanitizeHtml dom input SanitizeLevel.basic

/-- Full-match test of the email validation regular expression of sanitize.ts:
some decomposition A at-sign B dot C with the three parts nonempty and free of
whitespace and at-signs.  Equivalently: exactly one at-sign, no whitespace, a
nonempty local part, and a dot at an interior position of the domain part. -/
def emailRegexTest (s : String) : Bool :=
  let cs := s.data
  (cs.count '@' == 1) && cs.all (fun c => !c.isWhitespace) &&
  (let before := cs.takeWhile (fun c => c ≠ '@')
   let tail := (cs.dropWhile (fun c => c ≠ '@')).drop 1
   !before.isEmpty && ((tail.drop 1).dropLast.contains '.'))

/-- Embedding of sanitizeEmail from sanitize.ts. -/
def sanitizeEmail (dom : DomPurify) (email : String) : String :=
  if email = "" then "" else
  let sanitized := sanitizeText dom (strToLower (strTrim email))
  if emailRegexTest sanitized then sanitized else ""

/-- Character class kept by the location replacement regular expression:
ASCII letters and digits, whitespace, comma, period, hyphen, hash and
parentheses. -/
def isLocationChar (c : Char) : Bool :=
  c.isAlphanum || c.isWhitespace || c = ',' || c = '.' || c = '-' ||
  c = '#' || c = '(' || c = ')'

/-- Embedding of sanitizeLocation from sanitize.ts: strip markup, drop every
character outside the allowed class, trim. -/
def sanitizeLocation (dom : DomPurify) (location : String) : String :=
  if location = "" then "" else
  let sanitized := sanitizeText dom location
  strTrim (String.mk (sanitized.data.filter isLocationChar))

/-- Test of the dangerous protocol regular expression of sanitizeUrl. -/
def dangerousProtocolsTest (s : String) : Bool :=
  startsWithCI s "javascript:" || startsWithCI s "data:" ||
  startsWithCI s "vbscript:" || startsWithCI s "file:" ||
  startsWithCI s "ftp:"

/-- Test of the allowed protocol regular expression of sanitizeUrl. -/
def allowedProtocolsTest (s : String) : Bool :=
  startsWithCI s "http://" || startsWithCI s "https://" ||
  startsWithCI s "mailto:"

/-- Embedding of sanitizeUrl from sanitize.ts: empty input yields the empty
string; a sanitized value with a dangerous protocol yields the empty string;
a value with no :// and no mailto: prefix is prefixed with https://; otherwise
the value is returned when it matches an allowed protocol and the empty string
when it does not. -/
def sanitizeUrl (dom : DomPurify) (url : String) : String :=
  if url = "" then "" else
  let sanitized := sanitizeText dom (strTrim url)
  if dangerousProtocolsTest sanitized then ""
  else if !(strIncludes sanitized "://") &&
          !(strStartsWith sanitized "mailto:") then
    "https://" ++ sanitized
  else if allowedProtocolsTest sanitized then sanitized else ""

/-- Validated form values of ReportForm.tsx (the reportSchema object). -/
structure ReportFormData where
  title : String
  description : String
  location : String
  category : String
  severity : String
  reporter_name : String
  reporter_email : String

/-- Embedding of sanitizeFormData from sanitize.ts specialised to the report
form fields: the key dispatch sends reporter_email to sanitizeEmail, location
to sanitizeLocation, description to sanitizeUserContent, and every remaining
string field to sanitizeText. -/
def sanitizeFormDataReport (dom : DomPurify) (d : ReportFormData) :
    ReportFormData :=
  { title := sanitizeText dom d.title
    description := sanitizeUserContent dom d.description
    location := sanitizeLocation dom d.location
    category := sanitizeText dom d.category
    severity := sanitizeText dom d.severity
    reporter_name := sanitizeText dom d.reporter_name
    reporter_email := sanitizeEmail dom d.reporter_email }

/-- Row object inserted into the reports table by the onSubmit callback of
ReportForm.tsx. -/
structure InsertedReportRow where
  title : String
  description : String
  location : String
  category : String
  severity : String
  reporter_name : String
  reporter_email : String
  status : String
  created_at : String

/-- Embedding of the row built by the onSubmit callback of ReportForm.tsx:
the sanitized form fields, a literal active status, and the current time as
created_at. -/
def onSubmitInsertRow (dom : DomPurify) (nowIso : String)
    (d : ReportFormData) : InsertedReportRow :=
  let s := sanitizeFormDataReport dom d
  { title := s.title
    description := s.description
    location := s.location
    category := s.category
    severity := s.severity
    reporter_name := s.reporter_name
    reporter_email := s.reporter_email
    status := "active"
    created_at := nowIso }

/-- Embedding of formatTimeAgo from utils.ts, with the two Date values passed
as integer millisecond timestamps.  JavaScript Math.floor on an exact division
of integers is floor division, hence Int.fdiv. -/
def formatTimeAgo (nowMs dateMs : Int) : String :=
  let diffInMinutes : Int := (nowMs - dateMs).fdiv 60000
  if diffInMinutes < 1 then "Just now"
  else if diffInMinutes < 60 then toString diffInMinutes ++ "m ago"
  else if diffInMinutes < 1440 then toString (diffInMinutes.fdiv 60) ++ "h ago"
  else toString (diffInMinutes.fdiv 1440) ++ "d ago"

/-- First comma-separated segment of a location string, trimmed, as computed
by the topLocations aggregation of the Analytics component. -/
def firstLocationSegment (location : String) : String :=
  strTrim (String.mk (location.data.takeWhile (fun c => c ≠ ',')))

/-- One step of the locationCounts accumulation of fetchAnalytics.  The
JavaScript object of counts is modelled as an association list in insertion
order; an existing key is incremented in place, a new key is appended. -/
def locationCountsStep (acc : List (String × Nat)) (r : Report) :
    List (String × Nat) :=
  let loc := firstLocationSegment r.location
  match acc.find? (fun p => p.1 == loc) with
  | some _ => acc.map (fun p => if p.1 == loc then (p.1, p.2 + 1) else p)
  | none => acc ++ [(loc, 1)]

/-- Count of reports per first location segment, as accumulated by
fetchAnalytics over the fetched reports. -/
def locationCounts (reports : List Report) : List (String × Nat) :=
  reports.foldl locationCountsStep []

/-- Descending comparison on the count component, as used by the comparator of
the topLocations sort. -/
def countGe (a b : String × Nat) : Prop := b.2 ≤ a.2

instance : DecidableRel countGe := fun a b => by
  unfold countGe; infer_instance

instance : IsTotal (String × Nat) countGe :=
  ⟨fun a b => Nat.le_total b.2 a.2⟩

instance : IsTrans (String × Nat) countGe :=
  ⟨fun _ _ _ h1 h2 => Nat.le_trans h2 h1⟩

/-- Embedding of the topLocations aggregate of fetchAnalytics: the location
counts sorted by descending count and cut to the first five entries. -/
def topLocations (reports : List Report) : List (String × Nat) :=
  ((locationCounts reports).insertionSort countGe).take 5

/-- Embedding of the JavaScript Math.atan2 function on real arguments,
by quadrant, following the standard specification (signed zeros collapse to
zero on the reals). -/
noncomputable def atan2 (y x : ℝ) : ℝ :=
  if 0 < x then Real.arctan (y / x)
  else if x < 0 then
    (if 0 ≤ y then Real.arctan (y / x) + Real.pi
     else Real.arctan (y / x) - Real.pi)
  else
    (if 0 < y then Real.pi / 2
     else if y < 0 then -(Real.pi / 2)
     else 0)

/-- Embedding of calculateDistance from utils.ts and ReportForm.tsx: the
haversine formula with Earth radius 6371, over the reals. -/
noncomputable def calculateDistance (lat1 lng1 lat2 lng2 : ℝ) : ℝ :=
  let R : ℝ := 6371
  let dLat := (lat2 - lat1) * Real.pi / 180
  let dLng := (lng2 - lng1) * Real.pi / 180
  let a := Real.sin (dLat / 2) * Real.sin (dLat / 2) +
    Real.cos (lat1 * Real.pi / 180) * Real.cos (lat2 * Real.pi / 180) *
      Real.sin (dLng / 2) * Real.sin (dLng / 2)
  let c := 2 * atan2 (Real.sqrt a) (Real.sqrt (1 - a))
  R * c

/-- Predicate expressing that a report matches the active filters of the hook
options: its status equals the selected status (active when none is selected),
its category equals the category filter whenever that filter is set and not
the string all, and it matches the search term whenever one is set. -/
def matchesFilters (opts : UseReportsOptions) (r : Report) : Bool :=
  (r.status == statusFilterValue opts) &&
  (if truthyStr opts.filter && (opts.filter.getD "" != "all") then
      r.category == opts.filter.getD ""
    else true) &&
  (if truthyStr opts.searchTerm then
      matchesSearch (opts.searchTerm.getD "") r
    else true)

/-- Sample report constructor used by concrete witnesses below. -/
def mkReport (i title cat status created : String) : Report :=
  { id := i
    title := title
    description := "desc"
    location := "Main St, Springfield"
    category := cat
    severity := "low"
    status := status
    reporter_name := none
    reporter_email := none
    latitude := none
    longitude := none
    created_at := created
    updated_at := created }

/-- Sample active traffic report. -/
def exActive : Report := mkReport "r1" "Jam" "traffic" "active" "2024-01-02T10:00:00Z"

/-- C3: deleteReport first attempts the hard delete; on rejection it falls
back to updating the status of the row to resolved; when either request
succeeds the report is removed from the local array and true is returned;
false is returned exactly when the fallback update also fails, and then an
error toast is shown and the array is unchanged. -/
theorem deleteReport_spec (outcome : DeleteOutcome) (prev : List Report)
    (reportId : String) :
    (deleteReport outcome prev reportId).requests.head? =
      some (DbRequest.hardDelete reportId) ∧
    (outcome.hardDeleteError = none →
      (deleteReport outcome prev reportId).requests =
        [DbRequest.hardDelete reportId]) ∧
    (outcome.hardDeleteError ≠ none →
      (deleteReport outcome prev reportId).requests =
        [DbRequest.hardDelete reportId,
         DbRequest.updateStatus reportId "resolved"]) ∧
    ((outcome.hardDeleteError = none ∨ outcome.updateError = none) →
      (deleteReport outcome prev reportId).returned = true ∧
      (deleteReport outcome prev reportId).reports =
        prev.filter (fun r => r.id ≠ reportId) ∧
      ∀ r ∈ (deleteReport outcome prev reportId).reports, r.id ≠ reportId) ∧
    ((deleteReport outcome prev reportId).returned = false ↔
      outcome.hardDeleteError ≠ none ∧ outcome.updateError ≠ none) ∧
    ((deleteReport outcome prev reportId).returned = false →
      (deleteReport outcome prev reportId).toast.variant =
        ToastVariant.destructive ∧
      (deleteReport outcome prev reportId).reports = prev) := by
  cases h1 : outcome.hardDeleteError <;> cases h2 : outcome.updateError <;>
    simp [deleteReport, h1, h2, List.mem_filter]

/-- C3 witness: a concrete run where the hard delete is rejected and the
fallback update succeeds removes the row and returns true. -/
theorem deleteReport_spec_witness :
    (deleteReport ⟨some "rls refused", none⟩ [exActive] "r1").returned = true ∧
    (deleteReport ⟨some "rls refused", none⟩ [exActive] "r1").reports = [] := by
  have h := deleteReport_spec ⟨some "rls refused", none⟩ [exActive] "r1"
  refine ⟨(h.2.2.2.1 (Or.inr rfl)).1, ?_⟩
  rw [(h.2.2.2.1 (Or.inr rfl)).2.1]
  decide

/-- C4: a failing fetch sets the error state to the extracted message, shows a
destructive toast, leaves the reports array untouched, and resets loading; the
array is replaced only by the success branch, whose value on the backend query
result is exactly fetchReportsQuery. -/
theorem fetchReports_error_spec (opts : UseReportsOptions) (st : FetchState)
    (e : JsError) (table : List Report) :
    (fetchReportsRun opts st (Except.error e)).1.error =
      some (jsErrorMessage e) ∧
    (fetchReportsRun opts st (Except.error e)).1.reports = st.reports ∧
    (fetchReportsRun opts st (Except.error e)).1.loading = false ∧
    (fetchReportsRun opts st (Except.error e)).2 =
      some { title := "Error loading reports"
             description := "Please try again later."
             variant := ToastVariant.destructive } ∧
    (fetchReportsRun opts st (Except.ok (reportsQuery opts table))).1.reports =
      fetchReportsQuery opts table := by
  refine ⟨rfl, rfl, rfl, rfl, rfl⟩

/-- C6: for every DOMPurify behaviour, submission time and validated form
input, the row that the report form submit handler inserts has status active. -/
theorem onSubmit_status_active (dom : DomPurify) (nowIso : String)
    (d : ReportFormData) :
    (onSubmitInsertRow dom nowIso d).status = "active" := rfl

/-- Printing a nonnegative integer prints its natural number value. -/
theorem toString_toNat_of_nonneg {d : Int} (h : 0 ≤ d) :
    toString d = toString d.toNat := by
  obtain ⟨n, rfl⟩ := Int.eq_ofNat_of_zero_le h
  rfl

/-- C10: formatTimeAgo only produces the shapes Just now, m ago, h ago and
d ago with a nonnegative count, and any timestamp at or after the current time
yields Just now. -/
theorem formatTimeAgo_spec (nowMs dateMs : Int) :
    (formatTimeAgo nowMs dateMs = "Just now" ∨
     (∃ n : Nat, formatTimeAgo nowMs dateMs = toString n ++ "m ago") ∨
     (∃ n : Nat, formatTimeAgo nowMs dateMs = toString n ++ "h ago") ∨
     (∃ n : Nat, formatTimeAgo nowMs dateMs = toString n ++ "d ago")) ∧
    (nowMs ≤ dateMs → formatTimeAgo nowMs dateMs = "Just now") := by
  unfold formatTimeAgo
  constructor
  · by_cases h1 : (nowMs - dateMs).fdiv 60000 < 1
    · simp [h1]
    · by_cases h2 : (nowMs - dateMs).fdiv 60000 < 60
      · refine Or.inr (Or.inl ⟨((nowMs - dateMs).fdiv 60000).toNat, ?_⟩)
        simp only [h1, if_false, h2, if_true]
        rw [toString_toNat_of_nonneg (by omega)]
      · by_cases h3 : (nowMs - dateMs).fdiv 60000 < 1440
        · refine Or.inr (Or.inr (Or.inl
            ⟨(((nowMs - dateMs).fdiv 60000).fdiv 60).toNat, ?_⟩))
          simp only [h1, if_false, h2, if_false, h3, if_true]
          rw [toString_toNat_of_nonneg
            (Int.fdiv_nonneg (by omega) (by norm_num))]
        · refine Or.inr (Or.inr (Or.inr
            ⟨(((nowMs - dateMs).fdiv 60000).fdiv 1440).toNat, ?_⟩))
          simp only [h1, if_false, h2, if_false, h3, if_false]
          rw [toString_toNat_of_nonneg
            (Int.fdiv_nonneg (by omega) (by norm_num))]
  · intro hle
    have h1 : (nowMs - dateMs).fdiv 60000 < 1 := by
      rw [Int.fdiv_eq_ediv _ (by norm_num)]
      omega
    simp [h1]

/-- C10 witness: a timestamp five milliseconds in the future gives Just now,
and one ninety seconds in the past gives a minute count. -/
theorem formatTimeAgo_spec_witness :
    formatTimeAgo 0 5 = "Just now" := by
  exact (formatTimeAgo_spec 0 5).2 (by decide)

/-- The INSERT guard of the realtime handler compares against exactly the
status filter value. -/
theorem insertGuard_eq_statusFilterValue (opts : UseReportsOptions)
    (nr : Report) :
    (if truthyStr opts.status then nr.status == opts.status.getD ""
     else nr.status == "active") = (nr.status == statusFilterValue opts) := by
  unfold statusFilterValue
  cases h : truthyStr opts.status <;> simp

/-- C2: the realtime reducers merge events as described: DELETE keeps exactly
the reports with a different id, in order; INSERT prepends the new row when
its status matches the subscribed status filter and does nothing otherwise;
UPDATE with a matching status replaces the report with the matching id by the
new row, and UPDATE with a non-matching status removes the report with that id
and keeps every other report, in order. -/
theorem realtimeReducers_spec (opts : UseReportsOptions) (prev : List Report) :
    (∀ oldId : String,
      (∀ r : Report,
        r ∈ applyRealtimeEvent opts (RealtimeEvent.delete oldId) prev ↔
          (r ∈ prev ∧ r.id ≠ oldId)) ∧
      (applyRealtimeEvent opts (RealtimeEvent.delete oldId) prev).Sublist
        prev) ∧
    (∀ nr : Report,
      (nr.status = statusFilterValue opts →
        applyRealtimeEvent opts (RealtimeEvent.insert nr) prev = nr :: prev) ∧
      (nr.status ≠ statusFilterValue opts →
        applyRealtimeEvent opts (RealtimeEvent.insert nr) prev = prev)) ∧
    (∀ ur : Report,
      (ur.status = statusFilterValue opts →
        applyRealtimeEvent opts (RealtimeEvent.update ur) prev =
          prev.map (fun r => if r.id = ur.id then ur else r)) ∧
      (ur.status ≠ statusFilterValue opts →
        (∀ r ∈ applyRealtimeEvent opts (RealtimeEvent.update ur) prev,
          r.id ≠ ur.id) ∧
        (∀ r ∈ prev, r.id ≠ ur.id →
          r ∈ applyRealtimeEvent opts (RealtimeEvent.update ur) prev) ∧
        (applyRealtimeEvent opts (RealtimeEvent.update ur) prev).Sublist
          prev)) := by
  refine ⟨fun oldId => ⟨fun r => ?_, ?_⟩, fun nr => ⟨fun h => ?_, fun h => ?_⟩,
    fun ur => ⟨fun h => ?_, fun h => ?_⟩⟩
  · simp [applyRealtimeEvent, List.mem_filter]
  · exact List.filter_sublist _
  · simp only [applyRealtimeEvent]
    rw [insertGuard_eq_statusFilterValue]
    simp [h]
  · simp only [applyRealtimeEvent]
    rw [insertGuard_eq_statusFilterValue]
    simp [h]
  · simp only [applyRealtimeEvent, if_neg (not_not_intro h)]
    apply List.map_congr_left
    intro r _
    by_cases hid : r.id = ur.id <;> simp [hid]
  · refine ⟨?_, ?_, ?_⟩
    · intro r hr
      simp only [applyRealtimeEvent, if_pos h, List.mem_filter] at hr
      simpa using hr.2
    · intro r hr hid
      simp [applyRealtimeEvent, if_pos h, List.mem_filter, hr, hid]
    · simp only [applyRealtimeEvent, if_pos h]
      exact List.filter_sublist _

/-- C2 witness: on an empty array, inserting an active report under empty
options prepends it. -/
theorem realtimeReducers_spec_witness :
    applyRealtimeEvent {} (RealtimeEvent.insert exActive) [] = [exActive] := by
  exact ((realtimeReducers_spec {} []).2.1 exActive).1 (by decide)

/-- Membership in the backend query result forces the status filter and, when
the category filter is active, the category filter. -/
theorem mem_reportsQuery {opts : UseReportsOptions} {table : List Report}
    {r : Report} (h : r ∈ reportsQuery opts table) :
    (r.status == statusFilterValue opts) = true ∧
    ((truthyStr opts.filter && (opts.filter.getD "" != "all")) = true →
      (r.category == opts.filter.getD "") = true) := by
  simp only [reportsQuery] at h
  have hq2 : r ∈ (if truthyStr opts.filter && (opts.filter.getD "" != "all")
      then (table.filter
          (fun r => r.status == statusFilterValue opts)).filter
          (fun r => r.category == opts.filter.getD "")
      else table.filter (fun r => r.status == statusFilterValue opts)) := by
    split at h
    · exact (List.perm_insertionSort createdAtLe _).subset h
    · exact (List.perm_insertionSort createdAtGe _).subset h
  by_cases hc : (truthyStr opts.filter && (opts.filter.getD "" != "all")) = true
  · rw [if_pos hc] at hq2
    simp only [List.mem_filter] at hq2
    exact ⟨hq2.1.2, fun _ => hq2.2⟩
  · rw [if_neg hc] at hq2
    simp only [List.mem_filter] at hq2
    exact ⟨hq2.2, fun hcc => absurd hcc hc⟩

/-- C1 amended: every report displayed right after a fetch matches all three
active filters; the realtime merge preserves only the status constraint, for
every event, so after realtime events every displayed report still has the
expected status, but the category and search constraints are not re-checked by
the INSERT and UPDATE handlers. -/
theorem displayedReports_filters (opts : UseReportsOptions)
    (table prev : List Report) (ev : RealtimeEvent) :
    (∀ r ∈ fetchReportsQuery opts table, matchesFilters opts r = true) ∧
    ((∀ r ∈ prev, r.status = statusFilterValue opts) →
      ∀ r ∈ applyRealtimeEvent opts ev prev,
        r.status = statusFilterValue opts) := by
  constructor
  · intro r hr
    unfold fetchReportsQuery at hr
    by_cases hs : truthyStr opts.searchTerm = true
    · rw [if_pos hs] at hr
      rw [List.mem_filter] at hr
      obtain ⟨hrq, hsearch⟩ := hr
      have hq := mem_reportsQuery hrq
      simp only [matchesFilters, Bool.and_eq_true]
      refine ⟨⟨hq.1, ?_⟩, ?_⟩
      · by_cases hcc : (truthyStr opts.filter &&
            (opts.filter.getD "" != "all")) = true
        · have hcc2 := hcc
          rw [Bool.and_eq_true] at hcc2
          rw [if_pos hcc2]; exact hq.2 hcc
        · have hcc2 := hcc
          rw [Bool.and_eq_true] at hcc2
          rw [if_neg hcc2]
      · rw [if_pos hs]; exact hsearch
    · rw [if_neg hs] at hr
      have hq := mem_reportsQuery hr
      simp only [matchesFilters, Bool.and_eq_true]
      refine ⟨⟨hq.1, ?_⟩, ?_⟩
      · by_cases hcc : (truthyStr opts.filter &&
            (opts.filter.getD "" != "all")) = true
        · have hcc2 := hcc
          rw [Bool.and_eq_true] at hcc2
          rw [if_pos hcc2]; exact hq.2 hcc
        · have hcc2 := hcc
          rw [Bool.and_eq_true] at hcc2
          rw [if_neg hcc2]
      · rw [if_neg hs]
  · intro hprev
    cases ev with
    | delete oldId =>
      intro r hr
      exact hprev r (List.mem_of_mem_filter hr)
    | insert nr =>
      intro r hr
      simp only [applyRealtimeEvent] at hr
      rw [insertGuard_eq_statusFilterValue] at hr
      by_cases hg : (nr.status == statusFilterValue opts) = true
      · rw [if_pos hg] at hr
        rcases List.mem_cons.mp hr with rfl | hr2
        · exact beq_iff_eq.mp hg
        · exact hprev r hr2
      · rw [if_neg hg] at hr
        exact hprev r hr
    | update ur =>
      intro r hr
      simp only [applyRealtimeEvent] at hr
      by_cases hu : ur.status ≠ statusFilterValue opts
      · rw [if_pos hu] at hr
        exact hprev r (List.mem_of_mem_filter hr)
      · rw [if_neg hu] at hr
        rcases List.mem_map.mp hr with ⟨x, hx, hfx⟩
        by_cases hid : (x.id == ur.id) = true
        · rw [if_pos hid] at hfx
          rw [← hfx]
          exact not_not.mp hu
        · rw [if_neg hid] at hfx
          rw [← hfx]
          exact hprev x hx

/-- C1 witness: with empty options and a singleton active array, the status
constraint survives a DELETE event that touches nothing. -/
theorem displayedReports_filters_witness :
    exActive.status = statusFilterValue {} := by
  exact (displayedReports_filters {} [] [exActive]
    (RealtimeEvent.delete "zzz")).2 (by decide) exActive (by decide)

/-- Options with an active category filter on accidents. -/
def filterOpts : UseReportsOptions := { filter := some "accident" }

/-- Sample active report of a different category. -/
def exWeather : Report :=
  mkReport "r2" "Flood" "weather" "active" "2024-01-05T00:00:00Z"

/-- C1 counterexample: starting from the state fetched under an accident
category filter, merging a realtime INSERT of an active weather report lands a
report in the displayed array that does not match the active filters. -/
theorem displayedReports_filters_counterexample :
    ¬ (∀ r ∈ applyRealtimeEvent filterOpts (RealtimeEvent.insert exWeather)
        (fetchReportsQuery filterOpts []),
        matchesFilters filterOpts r = true) := by
  decide

/-- The backend query result is sorted ascending by created_at under the
oldest option and descending otherwise. -/
theorem reportsQuery_sorted (opts : UseReportsOptions) (table : List Report) :
    (opts.sortOrder = some SortOrder.oldest →
      List.Sorted createdAtLe (reportsQuery opts table)) ∧
    (opts.sortOrder ≠ some SortOrder.oldest →
      List.Sorted createdAtGe (reportsQuery opts table)) := by
  constructor
  · intro h
    simp only [reportsQuery]
    cases hb : (opts.sortOrder == some SortOrder.oldest)
    · exfalso; simp [h] at hb
    · rw [if_pos rfl]
      exact List.sorted_insertionSort createdAtLe _
  · intro h
    simp only [reportsQuery]
    cases hb : (opts.sortOrder == some SortOrder.oldest)
    · rw [if_neg (by simp)]
      exact List.sorted_insertionSort createdAtGe _
    · exfalso; simp at hb; exact h hb

/-- C5 amended: immediately after a fetch the displayed array is sorted by
created_at according to the selected order (ascending for oldest, descending
otherwise); a realtime INSERT prepends unconditionally, so the descending
order is preserved exactly when the inserted report is at least as recent as
every displayed report. -/
theorem sortedReports_spec (opts : UseReportsOptions)
    (table prev : List Report) (nr : Report) :
    (opts.sortOrder = some SortOrder.oldest →
      List.Sorted createdAtLe (fetchReportsQuery opts table)) ∧
    (opts.sortOrder ≠ some SortOrder.oldest →
      List.Sorted createdAtGe (fetchReportsQuery opts table)) ∧
    (nr.status = statusFilterValue opts →
      (∀ r ∈ prev, createdAtGe nr r) →
      List.Sorted createdAtGe prev →
      List.Sorted createdAtGe
        (applyRealtimeEvent opts (RealtimeEvent.insert nr) prev)) := by
  refine ⟨fun h => ?_, fun h => ?_, fun hst hmax hsorted => ?_⟩
  · have hb := (reportsQuery_sorted opts table).1 h
    unfold fetchReportsQuery
    split
    · exact List.Pairwise.sublist (List.filter_sublist _) hb
    · exact hb
  · have hb := (reportsQuery_sorted opts table).2 h
    unfold fetchReportsQuery
    split
    · exact List.Pairwise.sublist (List.filter_sublist _) hb
    · exact hb
  · simp only [applyRealtimeEvent]
    rw [insertGuard_eq_statusFilterValue]
    rw [if_pos (beq_iff_eq.mpr hst)]
    exact List.sorted_cons.mpr ⟨hmax, hsorted⟩

/-- C5 witness: the default fetch over a two-row table is sorted descending. -/
theorem sortedReports_spec_witness :
    List.Sorted createdAtGe (fetchReportsQuery {} [exActive, exWeather]) := by
  exact (sortedReports_spec {} [exActive, exWeather] [] exActive).2.1
    (by decide)

/-- Options selecting the ascending (oldest) sort order. -/
def oldestOpts : UseReportsOptions := { sortOrder := some SortOrder.oldest }

/-- Older sample report. -/
def exOld : Report := mkReport "a" "Old" "traffic" "active" "2024-01-01T00:00:00Z"

/-- Middle sample report. -/
def exMid : Report := mkReport "b" "Mid" "traffic" "active" "2024-01-02T00:00:00Z"

/-- C5 counterexample: under the oldest sort order a realtime INSERT of the
newest report is still prepended to the front, so the displayed array is no
longer sorted ascending by created_at. -/
theorem sortedReports_counterexample :
    ¬ List.Sorted createdAtLe
      (applyRealtimeEvent oldestOpts (RealtimeEvent.insert exWeather)
        (fetchReportsQuery oldestOpts [exOld, exMid])) := by
  decide

/-- Number of fetched reports whose location has the given first segment. -/
def countLoc (reports : List Report) (key : String) : Nat :=
  (reports.filter (fun r => firstLocationSegment r.location == key)).length

theorem countLoc_cons (r : Report) (l : List Report) (key : String) :
    countLoc (r :: l) key =
      (if firstLocationSegment r.location = key then 1 else 0) +
        countLoc l key := by
  simp only [countLoc, List.filter_cons]
  by_cases h : firstLocationSegment r.location = key
  · rw [if_pos (beq_iff_eq.mpr h), if_pos h]
    simp [Nat.add_comm]
  · rw [if_neg (by simp [h]), if_neg h]
    simp

/-- Keys are preserved by the increment mapping of locationCountsStep. -/
theorem locationCountsStep_keys {acc : List (String × Nat)} {r : Report}
    {q : String × Nat} (hq : q ∈ locationCountsStep acc r) :
    (∃ q0 ∈ acc, q0.1 = q.1) ∨
    q.1 = firstLocationSegment r.location := by
  simp only [locationCountsStep] at hq
  cases hf : acc.find?
      (fun p => p.1 == firstLocationSegment r.location) with
  | some w =>
    rw [hf] at hq
    rcases List.mem_map.mp hq with ⟨p, hp, rfl⟩
    by_cases hb : (p.1 == firstLocationSegment r.location) = true
    · rw [if_pos hb]
      exact Or.inl ⟨p, hp, rfl⟩
    · rw [if_neg hb]
      exact Or.inl ⟨p, hp, rfl⟩
  | none =>
    rw [hf] at hq
    rcases List.mem_append.mp hq with h | h
    · exact Or.inl ⟨q, h, rfl⟩
    · rcases List.mem_singleton.mp h with rfl
      exact Or.inr rfl

/-- Invariant of the locationCounts accumulation: relative to a ledger f of
counts already absorbed into the accumulator, every produced entry counts its
key exactly, every key with a nonzero total appears, and every produced key
stems from the accumulator or from a processed report. -/
theorem locationCounts_inv (l : List Report) (acc : List (String × Nat))
    (f : String → Nat)
    (h1 : ∀ p ∈ acc, p.2 = f p.1)
    (h2 : ∀ key, f key ≠ 0 → ∃ p ∈ acc, p.1 = key) :
    (∀ p ∈ l.foldl locationCountsStep acc, p.2 = f p.1 + countLoc l p.1) ∧
    (∀ key, f key + countLoc l key ≠ 0 →
      ∃ p ∈ l.foldl locationCountsStep acc, p.1 = key) ∧
    (∀ p ∈ l.foldl locationCountsStep acc,
      (∃ q ∈ acc, q.1 = p.1) ∨
      (∃ r ∈ l, firstLocationSegment r.location = p.1)) := by
  induction l generalizing acc f with
  | nil =>
    refine ⟨fun p hp => ?_, fun key hk => ?_, fun p hp => Or.inl ⟨p, hp, rfl⟩⟩
    · simpa [countLoc] using h1 p hp
    · simp only [countLoc, List.filter_nil, List.length_nil, Nat.add_zero]
        at hk
      exact h2 key hk
  | cons r l ih =>
    have hstep1 : ∀ p ∈ locationCountsStep acc r,
        p.2 = if firstLocationSegment r.location = p.1
          then f p.1 + 1 else f p.1 := by
      intro p' hp'
      simp only [locationCountsStep] at hp'
      cases hf : acc.find?
          (fun p => p.1 == firstLocationSegment r.location) with
      | some w =>
        rw [hf] at hp'
        rcases List.mem_map.mp hp' with ⟨p, hp, rfl⟩
        by_cases hb : (p.1 == firstLocationSegment r.location) = true
        · rw [if_pos hb]
          have he : firstLocationSegment r.location = p.1 :=
            (beq_iff_eq.mp hb).symm
          show p.2 + 1 = if firstLocationSegment r.location = p.1
            then f p.1 + 1 else f p.1
          rw [if_pos he, h1 p hp]
        · rw [if_neg hb]
          have he : ¬ firstLocationSegment r.location = p.1 := by
            intro h
            exact hb (beq_iff_eq.mpr h.symm)
          rw [if_neg he]
          exact h1 p hp
      | none =>
        rw [hf] at hp'
        rcases List.mem_append.mp hp' with h | h
        · have he : ¬ firstLocationSegment r.location = p'.1 := by
            intro hcontra
            exact (List.find?_eq_none.mp hf p' h)
              (beq_iff_eq.mpr hcontra.symm)
          rw [if_neg he]
          exact h1 p' h
        · rcases List.mem_singleton.mp h with rfl
          have hf0 : f (firstLocationSegment r.location) = 0 := by
            by_contra hne
            rcases h2 _ hne with ⟨p, hp, hkey⟩
            exact (List.find?_eq_none.mp hf p hp) (beq_iff_eq.mpr hkey)
          show 1 = if firstLocationSegment r.location =
              firstLocationSegment r.location
            then f (firstLocationSegment r.location) + 1
            else f (firstLocationSegment r.location)
          rw [if_pos rfl, hf0]
    have hstep2 : ∀ key,
        (if firstLocationSegment r.location = key
          then f key + 1 else f key) ≠ 0 →
        ∃ p ∈ locationCountsStep acc r, p.1 = key := by
      intro key hk
      by_cases hc : firstLocationSegment r.location = key
      · simp only [locationCountsStep]
        cases hf : acc.find?
            (fun p => p.1 == firstLocationSegment r.location) with
        | some w =>
          have hw0 := @List.find?_some _
            (fun p => p.1 == firstLocationSegment r.location) w acc hf
          have hw : w.1 = firstLocationSegment r.location :=
            beq_iff_eq.mp hw0
          refine ⟨(w.1, w.2 + 1), List.mem_map.mpr
            ⟨w, List.mem_of_find?_eq_some hf, ?_⟩, hw.trans hc⟩
          rw [if_pos (beq_iff_eq.mpr hw)]
        | none =>
          exact ⟨(firstLocationSegment r.location, 1),
            List.mem_append.mpr (Or.inr (List.mem_singleton.mpr rfl)), hc⟩
      · rw [if_neg hc] at hk
        rcases h2 key hk with ⟨p, hp, hkey⟩
        simp only [locationCountsStep]
        cases hf : acc.find?
            (fun p => p.1 == firstLocationSegment r.location) with
        | some w =>
          refine ⟨(if (p.1 == firstLocationSegment r.location) = true
            then (p.1, p.2 + 1) else p), List.mem_map.mpr ⟨p, hp, rfl⟩, ?_⟩
          by_cases hb : (p.1 == firstLocationSegment r.location) = true
          · rw [if_pos hb]; exact hkey
          · rw [if_neg hb]; exact hkey
        | none =>
          exact ⟨p, List.mem_append.mpr (Or.inl hp), hkey⟩
    have hmain := ih (locationCountsStep acc r)
      (fun key => if firstLocationSegment r.location = key
        then f key + 1 else f key) hstep1 hstep2
    rw [List.foldl_cons]
    refine ⟨fun p hp => ?_, fun key hk => ?_, fun p hp => ?_⟩
    · have h3 : p.2 = (if firstLocationSegment r.location = p.1
          then f p.1 + 1 else f p.1) + countLoc l p.1 := hmain.1 p hp
      rw [countLoc_cons, h3]
      by_cases hc : firstLocationSegment r.location = p.1
      · rw [if_pos hc, if_pos hc]
        omega
      · rw [if_neg hc, if_neg hc]
        omega
    · refine hmain.2.1 key ?_
      show (if firstLocationSegment r.location = key
        then f key + 1 else f key) + countLoc l key ≠ 0
      rw [countLoc_cons] at hk
      by_cases hc : firstLocationSegment r.location = key
      · rw [if_pos hc]
        rw [if_pos hc] at hk
        omega
      · rw [if_neg hc]
        rw [if_neg hc] at hk
        omega
    · rcases hmain.2.2 p hp with ⟨q, hq, hkey⟩ | ⟨r2, hr2, hkey⟩
      · rcases locationCountsStep_keys hq with ⟨q0, hq0, hkey0⟩ | hloc
        · exact Or.inl ⟨q0, hq0, hkey0.trans hkey⟩
        · exact Or.inr ⟨r, List.mem_cons_self r l, hloc.symm.trans hkey⟩
      · exact Or.inr ⟨r2, List.mem_cons_of_mem r hr2, hkey⟩

/-- C7: the topLocations aggregate has at most five entries, is sorted by
non-increasing count, and every entry pairs a first location segment that
occurs among the fetched reports with the exact number of fetched reports
whose location has that first segment. -/
theorem topLocations_spec (reports : List Report) :
    (topLocations reports).length ≤ 5 ∧
    List.Sorted countGe (topLocations reports) ∧
    (∀ p ∈ topLocations reports,
      p.2 = countLoc reports p.1 ∧
      ∃ r ∈ reports, firstLocationSegment r.location = p.1) := by
  refine ⟨?_, ?_, fun p hp => ?_⟩
  · simp only [topLocations, List.length_take]
    exact Nat.min_le_left _ _
  · exact List.Pairwise.sublist (List.take_sublist _ _)
      (List.sorted_insertionSort countGe _)
  · have hmem : p ∈ locationCounts reports :=
      (List.perm_insertionSort countGe _).subset (List.mem_of_mem_take hp)
    have hmain := locationCounts_inv reports [] (fun _ => 0)
      (by simp) (by simp)
    refine ⟨by simpa using hmain.1 p hmem, ?_⟩
    rcases hmain.2.2 p hmem with ⟨q, hq, _⟩ | h
    · exact absurd hq (List.not_mem_nil q)
    · exact h

/-- Reports for the concrete analytics witness. -/
def exAnalyticsReports : List Report :=
  [mkReport "x1" "A" "traffic" "active" "2024-01-01T00:00:00Z",
   mkReport "x2" "B" "accident" "active" "2024-01-02T00:00:00Z"]

/-- C7 witness: both sample reports share the first location segment, so the
aggregate counts two of them. -/
theorem topLocations_spec_witness :
    2 = countLoc exAnalyticsReports "Main St" := by
  exact ((topLocations_spec exAnalyticsReports).2.2 ("Main St", 2)
    (by decide)).1

/-- Prefixing a string with https:// makes it start with https:// under the
case-insensitive test. -/
theorem startsWithCI_append_https (s : String) :
    startsWithCI ("https://" ++ s) "https://" = true := by
  unfold startsWithCI strToLower
  rw [List.isPrefixOf_iff_prefix, String.data_append, List.map_append]
  exact List.prefix_append _ _

/-- Two case-insensitive anchored prefixes of the same string are comparable,
so incomparable patterns exclude each other. -/
theorem startsWithCI_excl {r : String} (p q : String)
    (h : startsWithCI r p = true)
    (hpq : ((strToLower p).data.isPrefixOf (strToLower q).data ||
            (strToLower q).data.isPrefixOf (strToLower p).data) = false) :
    startsWithCI r q = false := by
  by_contra hq
  rw [Bool.not_eq_false] at hq
  unfold startsWithCI at h hq
  rw [List.isPrefixOf_iff_prefix] at h hq
  rw [Bool.or_eq_false_iff] at hpq
  rcases List.prefix_or_prefix_of_prefix h hq with hh | hh
  · exact absurd (List.isPrefixOf_iff_prefix.mpr hh) (by simp [hpq.1])
  · exact absurd (List.isPrefixOf_iff_prefix.mpr hh) (by simp [hpq.2])

/-- C9: sanitizeUrl returns the empty string or a string that begins, case
insensitively, with one of the allowed protocols; it never returns a string
beginning with a dangerous protocol; and a nonempty input whose sanitized
value has no protocol marker is returned with the https:// prefix. -/
theorem sanitizeUrl_spec (dom : DomPurify) (url : String) :
    (sanitizeUrl dom url = "" ∨
     startsWithCI (sanitizeUrl dom url) "http://" = true ∨
     startsWithCI (sanitizeUrl dom url) "https://" = true ∨
     startsWithCI (sanitizeUrl dom url) "mailto:" = true) ∧
    (startsWithCI (sanitizeUrl dom url) "javascript:" = false ∧
     startsWithCI (sanitizeUrl dom url) "data:" = false ∧
     startsWithCI (sanitizeUrl dom url) "vbscript:" = false ∧
     startsWithCI (sanitizeUrl dom url) "file:" = false ∧
     startsWithCI (sanitizeUrl dom url) "ftp:" = false) ∧
    (url ≠ "" →
     dangerousProtocolsTest (sanitizeText dom (strTrim url)) = false →
     strIncludes (sanitizeText dom (strTrim url)) "://" = false →
     strStartsWith (sanitizeText dom (strTrim url)) "mailto:" = false →
     sanitizeUrl dom url = "https://" ++ sanitizeText dom (strTrim url)) := by
  have hmain : sanitizeUrl dom url = "" ∨
      startsWithCI (sanitizeUrl dom url) "http://" = true ∨
      startsWithCI (sanitizeUrl dom url) "https://" = true ∨
      startsWithCI (sanitizeUrl dom url) "mailto:" = true := by
    simp only [sanitizeUrl]
    by_cases h0 : url = ""
    · rw [if_pos h0]
      exact Or.inl rfl
    · rw [if_neg h0]
      by_cases hd : dangerousProtocolsTest (sanitizeText dom (strTrim url)) =
          true
      · rw [if_pos hd]
        exact Or.inl rfl
      · rw [if_neg hd]
        by_cases hn : (!(strIncludes (sanitizeText dom (strTrim url)) "://") &&
            !(strStartsWith (sanitizeText dom (strTrim url)) "mailto:")) = true
        · rw [if_pos hn]
          exact Or.inr (Or.inr (Or.inl (startsWithCI_append_https _)))
        · rw [if_neg hn]
          by_cases ha : allowedProtocolsTest (sanitizeText dom (strTrim url)) =
              true
          · rw [if_pos ha]
            rcases Bool.or_eq_true_iff.mp ha with ha2 | ha3
            · rcases Bool.or_eq_true_iff.mp ha2 with ha4 | ha4
              · exact Or.inr (Or.inl ha4)
              · exact Or.inr (Or.inr (Or.inl ha4))
            · exact Or.inr (Or.inr (Or.inr ha3))
          · rw [if_neg ha]
            exact Or.inl rfl
  refine ⟨hmain, ⟨?_, ?_, ?_, ?_, ?_⟩, fun h0 hd hn hm => ?_⟩
  · rcases hmain with h | h | h | h
    · rw [h]; decide
    all_goals exact startsWithCI_excl _ _ h (by decide)
  · rcases hmain with h | h | h | h
    · rw [h]; decide
    all_goals exact startsWithCI_excl _ _ h (by decide)
  · rcases hmain with h | h | h | h
    · rw [h]; decide
    all_goals exact startsWithCI_excl _ _ h (by decide)
  · rcases hmain with h | h | h | h
    · rw [h]; decide
    all_goals exact startsWithCI_excl _ _ h (by decide)
  · rcases hmain with h | h | h | h
    · rw [h]; decide
    all_goals exact startsWithCI_excl _ _ h (by decide)
  · simp only [sanitizeUrl]
    rw [if_neg h0, if_neg (by simp [hd]), if_pos (by simp [hn, hm])]

/-- C9 witness: with an identity sanitizer a plain host name is returned with
the https:// prefix. -/
theorem sanitizeUrl_spec_witness :
    sanitizeUrl (fun _ s => s) "example.com" = "https://example.com" := by
  have h := (sanitizeUrl_spec (fun _ s => s) "example.com").2.2
    (by decide) (by decide) (by decide) (by decide)
  exact h.trans (by decide)

/-- The haversine intermediate value a of calculateDistance, with the local
bindings substituted. -/
noncomputable def havA (lat1 lng1 lat2 lng2 : ℝ) : ℝ :=
  Real.sin ((lat2 - lat1) * Real.pi / 180 / 2) *
    Real.sin ((lat2 - lat1) * Real.pi / 180 / 2) +
  Real.cos (lat1 * Real.pi / 180) * Real.cos (lat2 * Real.pi / 180) *
    Real.sin ((lng2 - lng1) * Real.pi / 180 / 2) *
    Real.sin ((lng2 - lng1) * Real.pi / 180 / 2)

theorem calculateDistance_eq (lat1 lng1 lat2 lng2 : ℝ) :
    calculateDistance lat1 lng1 lat2 lng2 =
      6371 * (2 * atan2 (Real.sqrt (havA lat1 lng1 lat2 lng2))
        (Real.sqrt (1 - havA lat1 lng1 lat2 lng2))) := rfl

theorem havA_symm (lat1 lng1 lat2 lng2 : ℝ) :
    havA lat1 lng1 lat2 lng2 = havA lat2 lng2 lat1 lng1 := by
  unfold havA
  have h1 : (lat1 - lat2) * Real.pi / 180 / 2 =
      -((lat2 - lat1) * Real.pi / 180 / 2) := by ring
  have h2 : (lng1 - lng2) * Real.pi / 180 / 2 =
      -((lng2 - lng1) * Real.pi / 180 / 2) := by ring
  rw [h1, h2]
  simp only [Real.sin_neg]
  ring

theorem havA_self (lat lng : ℝ) : havA lat lng lat lng = 0 := by
  unfold havA
  have h1 : (lat - lat) * Real.pi / 180 / 2 = 0 := by ring
  have h2 : (lng - lng) * Real.pi / 180 / 2 = 0 := by ring
  rw [h1, h2, Real.sin_zero]
  ring

/-- The model of Math.atan2 is nonnegative on a nonnegative first argument. -/
theorem atan2_nonneg {y x : ℝ} (hy : 0 ≤ y) : 0 ≤ atan2 y x := by
  unfold atan2
  by_cases h1 : 0 < x
  · rw [if_pos h1]
    have h := Real.arctan_strictMono.monotone (div_nonneg hy h1.le)
    rwa [Real.arctan_zero] at h
  · rw [if_neg h1]
    by_cases h2 : x < 0
    · rw [if_pos h2, if_pos hy]
      have h := Real.neg_pi_div_two_lt_arctan (y / x)
      have hpi := Real.pi_pos
      linarith
    · rw [if_neg h2]
      by_cases h4 : 0 < y
      · rw [if_pos h4]
        have hpi := Real.pi_pos
        linarith
      · rw [if_neg h4, if_neg (not_lt.mpr hy)]

theorem atan2_zero_one : atan2 0 1 = 0 := by
  unfold atan2
  rw [if_pos (by norm_num : (0:ℝ) < 1)]
  simp [Real.arctan_zero]

/-- C8: the haversine distance is nonnegative, symmetric in the two points,
and zero on identical points, for all real coordinates. -/
theorem calculateDistance_spec (lat1 lng1 lat2 lng2 : ℝ) :
    0 ≤ calculateDistance lat1 lng1 lat2 lng2 ∧
    calculateDistance lat1 lng1 lat2 lng2 =
      calculateDistance lat2 lng2 lat1 lng1 ∧
    calculateDistance lat1 lng1 lat1 lng1 = 0 := by
  refine ⟨?_, ?_, ?_⟩
  · rw [calculateDistance_eq]
    have h := @atan2_nonneg (Real.sqrt (havA lat1 lng1 lat2 lng2))
      (Real.sqrt (1 - havA lat1 lng1 lat2 lng2)) (Real.sqrt_nonneg _)
    have h2 : (0:ℝ) ≤ 2 * atan2 (Real.sqrt (havA lat1 lng1 lat2 lng2))
        (Real.sqrt (1 - havA lat1 lng1 lat2 lng2)) := by linarith
    exact mul_nonneg (by norm_num) h2
  · rw [calculateDistance_eq, calculateDistance_eq, havA_symm]
  · rw [calculateDistance_eq, havA_self, Real.sqrt_zero, sub_zero,
      Real.sqrt_one, atan2_zero_one]
    ring
